import Mathlib

/-!
Verification development for the auto-trading core
(`src/services/autoTrading.ts`).

Conventions of the shallow embedding:
* JavaScript numbers are modelled as exact rationals (`ℚ`); the IEEE-754
  non-finite outcomes of dividing by zero are made explicit through the
  `JsNumber` type and the `jsDiv` helper, since `ℚ` has no infinities.
* `Date.now()` and `Math.random()` are environment inputs, passed
  explicitly (`Env`); one logical call to `executeSignal` reads one
  timestamp and at most two random draws, exactly as many as the source
  consumes on each path.
* TypeScript union-string fields become inductive types.  The source's
  `signal.action as 'buy' | 'sell'` cast is a compile-time assertion with
  no runtime effect, so the embedded `OrderResult.side` field carries the
  runtime value of `action` unchanged (`Action`); the hold path stores the
  literal `'buy'`.
* `throw new Error msg` becomes `Except.error msg`.
* Array indexing out of bounds (`prices[-1]` = `undefined`) becomes
  `Option`-returning indexing.
-/

namespace AutoTrading

/-- The `action` field of `TradingSignal`: `'buy' | 'sell' | 'hold'`. -/
inductive Action
  | buy
  | sell
  | hold
deriving DecidableEq, Repr

/-- The `status` field of `OrderResult`: `'pending' | 'filled' | 'cancelled' | 'failed'`. -/
inductive Status
  | pending
  | filled
  | cancelled
  | failed
deriving DecidableEq, Repr

/-- The `exchange` field of `ExchangeCredentials`: `'binance' | 'bybit' | 'okx' | 'demo'`. -/
inductive Exchange
  | binance
  | bybit
  | okx
  | demo
deriving DecidableEq, Repr

/-- The `TradingSignal` interface. -/
structure TradingSignal where
  symbol : String
  action : Action
  price : ℚ
  quantity : ℚ
  stopLoss : ℚ
  takeProfit : ℚ
  confidence : ℚ
  timestamp : ℕ
deriving DecidableEq, Repr

/-- The `ExchangeCredentials` interface. -/
structure ExchangeCredentials where
  exchange : Exchange
  apiKey : String
  apiSecret : String
  testnet : Bool
deriving DecidableEq, Repr

/-- The `OrderResult` interface.  The optional fields `fees`, `executedQty`,
`executedPrice` are `Option`-valued.  `side` carries the runtime value of
the source's string field (see the header: the TS cast is runtime-identity). -/
structure OrderResult where
  orderId : String
  symbol : String
  side : Action
  quantity : ℚ
  price : ℚ
  status : Status
  timestamp : ℕ
  fees : Option ℚ := none
  executedQty : Option ℚ := none
  executedPrice : Option ℚ := none
deriving DecidableEq, Repr

/-- Result of a JavaScript floating-point division, with the IEEE-754
non-finite outcomes explicit: `a / 0` is `+∞` for `a > 0`, `-∞` for
`a < 0` and `NaN` for `a = 0`. -/
inductive JsNumber
  | finite (q : ℚ)
  | posInf
  | negInf
  | nan
deriving DecidableEq, Repr

/-- JavaScript division on exact rationals. -/
def jsDiv (a b : ℚ) : JsNumber :=
  if b = 0 then
    if 0 < a then .posInf else if a < 0 then .negInf else .nan
  else
    .finite (a / b)

/-- The `RiskManagementService.calculatePositionSize`:
`riskAmount = accountBalance * (riskPercentage / 100)`,
`riskPerUnit = |entryPrice - stopLoss|`, result `riskAmount / riskPerUnit`
(a plain JS division, hence `jsDiv`: no guard and no thrown error). -/
def calculatePositionSize (accountBalance riskPercentage entryPrice stopLoss : ℚ) :
    JsNumber :=
  let riskAmount := accountBalance * (riskPercentage / 100)
  let riskPerUnit := |entryPrice - stopLoss|
  jsDiv riskAmount riskPerUnit

/-- The `RiskManagementService.calculateRiskReward`:
`risk = |entryPrice - stopLoss|`, `reward = |takeProfit - entryPrice|`,
result `reward / risk` (plain JS division, no guard). -/
def calculateRiskReward (entryPrice stopLoss takeProfit : ℚ) : JsNumber :=
  let risk := |entryPrice - stopLoss|
  let reward := |takeProfit - entryPrice|
  jsDiv reward risk

/-- The `RiskManagementService.isValidTrade`:
`maxLoss <= riskAmount && tradeValue <= accountBalance`. -/
def isValidTrade (signal : TradingSignal) (accountBalance : ℚ)
    (maxRiskPercentage : ℚ) : Bool :=
  let riskAmount := accountBalance * (maxRiskPercentage / 100)
  let tradeValue := signal.price * signal.quantity
  let maxLoss := |signal.price - signal.stopLoss| * signal.quantity
  decide (maxLoss ≤ riskAmount) && decide (tradeValue ≤ accountBalance)

/-- The consecutive differences `prices[i] - prices[i-1]` for
`i = 1 .. length-1`, in order (the loop shared by the RSI gain/loss
computation). -/
def deltas : List ℚ → List ℚ
  | a :: b :: rest => (b - a) :: deltas (b :: rest)
  | _ => []

/-- The `gains` array of `calculateRSI`: `change > 0 ? change : 0`. -/
def gains (prices : List ℚ) : List ℚ :=
  (deltas prices).map fun change => if 0 < change then change else 0

/-- The `losses` array of `calculateRSI`: `change < 0 ? |change| : 0`. -/
def losses (prices : List ℚ) : List ℚ :=
  (deltas prices).map fun change => if change < 0 then |change| else 0

/-- JavaScript `array.slice(-k)` for `k ≥ 1`: the last `k` elements
(the whole array when `k ≥ length`). -/
def lastN (k : ℕ) (l : List ℚ) : List ℚ :=
  l.drop (l.length - k)

/-- The `avgGain` of `calculateRSI`: `gains.slice(-period).reduce(+) / period`. -/
def rsiAvgGain (prices : List ℚ) (period : ℕ) : ℚ :=
  (lastN period (gains prices)).sum / period

/-- The `avgLoss` of `calculateRSI`: `losses.slice(-period).reduce(+) / period`. -/
def rsiAvgLoss (prices : List ℚ) (period : ℕ) : ℚ :=
  (lastN period (losses prices)).sum / period

/-- The `TechnicalAnalysisService.calculateRSI`.  Faithful for `period ≥ 1`
(for `period = 0` the JS code divides by zero producing `NaN`, which `ℚ`
cannot carry; every theorem below assumes `0 < period`). -/
def calculateRSI (prices : List ℚ) (period : ℕ) : ℚ :=
  if prices.length < period + 1 then 50
  else
    let avgGain := rsiAvgGain prices period
    let avgLoss := rsiAvgLoss prices period
    if avgLoss = 0 then 100
    else 100 - 100 / (1 + avgGain / avgLoss)

/-- The `TechnicalAnalysisService.calculateSMA`.  The insufficient-data
fallback reads `prices[prices.length - 1]`, which is out of bounds on the
empty array (`undefined` in JS), hence the `Option`-returning indexing. -/
def calculateSMA (prices : List ℚ) (period : ℕ) : Option ℚ :=
  if prices.length < period then prices[prices.length - 1]?
  else some ((lastN period prices).sum / period)

/-- The `TechnicalAnalysisService.calculateEMA`.  Same fallback as SMA; the
main branch seeds `ema = prices[0]` and folds
`ema = prices[i] * m + ema * (1 - m)` left-to-right over the rest
(`m = 2 / (period + 1)`).  On the empty array `prices[0]` is out of
bounds, hence `none`. -/
def calculateEMA (prices : List ℚ) (period : ℕ) : Option ℚ :=
  if prices.length < period then prices[prices.length - 1]?
  else
    match prices with
    | [] => none
    | p :: rest =>
      let m : ℚ := 2 / ((period : ℚ) + 1)
      some (rest.foldl (fun ema x => x * m + ema * (1 - m)) p)

/-- The decimal digit character for `d < 10` (`'0'` has code 48). -/
def digitChar (d : ℕ) : Char :=
  Char.ofNat (48 + d)

/-- Little-endian decimal digits of `n` (empty for `0`): the digit list
underlying JavaScript's number-to-string conversion of the integer
`Date.now()`. -/
def toDecDigits (n : ℕ) : List Char :=
  if h : n = 0 then []
  else digitChar (n % 10) :: toDecDigits (n / 10)
termination_by n
decreasing_by exact Nat.div_lt_self (Nat.pos_of_ne_zero h) (by decide)

/-- JavaScript's decimal rendering of a natural number, as produced by the
template literal `` `${Date.now()}` ``. -/
def natToDecimal (n : ℕ) : String :=
  if n = 0 then "0" else String.mk (toDecDigits n).reverse

/-- The `orderId` produced by `executeDemoTrade`: `` `demo_${Date.now()}` ``. -/
def demoOrderId (now : ℕ) : String :=
  "demo_" ++ natToDecimal now

/-- The `orderId` produced by `createHoldOrder`: `` `hold_${Date.now()}` ``. -/
def holdOrderId (now : ℕ) : String :=
  "hold_" ++ natToDecimal now

/-- The `orderId` produced by `executeBinanceTrade`'s success branch:
`` `binance_${Date.now()}` ``. -/
def binanceOrderId (now : ℕ) : String :=
  "binance_" ++ natToDecimal now

/-- Environment inputs of one `executeSignal` call: the `Date.now()`
reading and the (at most two) `Math.random()` draws, each in `[0, 1)`. -/
structure Env where
  now : ℕ
  rand1 : ℚ
  rand2 : ℚ
deriving DecidableEq, Repr

/-- Mutable state of one `AutoTradingService` instance: `credentials`,
`isEnabled` and the `orders` array (the order ledger). -/
structure AutoTradingState where
  credentials : ExchangeCredentials
  isEnabled : Bool
  orders : List OrderResult
deriving DecidableEq, Repr

/-- The constructor `new AutoTradingService(credentials)`:
`isEnabled = false`, `orders = []`. -/
def mkService (credentials : ExchangeCredentials) : AutoTradingState :=
  { credentials := credentials, isEnabled := false, orders := [] }

/-- The `AutoTradingService.enable`. -/
def enable (st : AutoTradingState) : AutoTradingState :=
  { st with isEnabled := true }

/-- The `AutoTradingService.disable`. -/
def disable (st : AutoTradingState) : AutoTradingState :=
  { st with isEnabled := false }

/-- The `AutoTradingService.createHoldOrder`: synthesizes the hold result.
Note the source returns it without pushing it onto `this.orders`. -/
def createHoldOrder (signal : TradingSignal) (now : ℕ) : OrderResult :=
  { orderId := holdOrderId now
    symbol := signal.symbol
    side := Action.buy
    quantity := 0
    price := signal.price
    status := Status.cancelled
    timestamp := now }

/-- The `AutoTradingService.executeDemoTrade`: builds the simulated order,
pushes it onto `this.orders` and returns it.  `rand1` decides
`filled`/`failed` (`Math.random() > 0.1`), `rand2` the slippage
(`(Math.random() - 0.5) * price * 0.001`). -/
def executeDemoTrade (orders : List OrderResult) (signal : TradingSignal)
    (env : Env) : OrderResult × List OrderResult :=
  let order : OrderResult :=
    { orderId := demoOrderId env.now
      symbol := signal.symbol
      side := signal.action
      quantity := signal.quantity
      price := signal.price
      status := if 1 / 10 < env.rand1 then Status.filled else Status.failed
      timestamp := env.now
      fees := some (signal.price * signal.quantity * (1 / 1000))
      executedQty := some signal.quantity
      executedPrice :=
        some (signal.price + (env.rand2 - 1 / 2) * signal.price * (1 / 1000)) }
  (order, orders ++ [order])

/-- The `AutoTradingService.executeBinanceTrade`: the placeholder builds a
simulated `filled` response and returns it.  Note the source returns the
result WITHOUT pushing it onto `this.orders` (unlike the demo path); the
`catch` branch is unreachable because the `try` body cannot throw. -/
def executeBinanceTrade (orders : List OrderResult) (signal : TradingSignal)
    (env : Env) : OrderResult × List OrderResult :=
  let order : OrderResult :=
    { orderId := binanceOrderId env.now
      symbol := signal.symbol
      side := signal.action
      quantity := signal.quantity
      price := signal.price
      status := Status.filled
      timestamp := env.now
      fees := some (signal.price * signal.quantity * (1 / 1000))
      executedQty := some signal.quantity
      executedPrice := some signal.price }
  (order, orders)

/-- The `AutoTradingService.executeRealTrade`: string-keyed dispatch; the
`bybit` and `okx` placeholders delegate to `executeDemoTrade`; the
`default` branch throws `Unsupported exchange`. -/
def executeRealTrade (credentials : ExchangeCredentials)
    (orders : List OrderResult) (signal : TradingSignal) (env : Env) :
    Except String (OrderResult × List OrderResult) :=
  match credentials.exchange with
  | Exchange.binance => Except.ok (executeBinanceTrade orders signal env)
  | Exchange.bybit => Except.ok (executeDemoTrade orders signal env)
  | Exchange.okx => Except.ok (executeDemoTrade orders signal env)
  | Exchange.demo => Except.error "Unsupported exchange: demo"

/-- The `AutoTradingService.executeSignal`.  Returns the order result, the
post-call state, and an instrumentation flag recording whether a
trade-execution method (demo or real) ran — `false` exactly on the hold
path, which calls no gateway. -/
def executeSignal (st : AutoTradingState) (signal : TradingSignal)
    (env : Env) : Except String (OrderResult × AutoTradingState × Bool) :=
  if st.isEnabled = false then
    Except.error "Auto trading is not enabled"
  else if signal.action = Action.hold then
    Except.ok (createHoldOrder signal env.now, st, false)
  else if st.credentials.exchange = Exchange.demo then
    let (order, orders2) := executeDemoTrade st.orders signal env
    Except.ok (order, { st with orders := orders2 }, true)
  else
    match executeRealTrade st.credentials st.orders signal env with
    | Except.ok (order, orders2) =>
        Except.ok (order, { st with orders := orders2 }, true)
    | Except.error e => Except.error e

/-- The `AutoTradingService.getOrders`. -/
def getOrders (st : AutoTradingState) : List OrderResult :=
  st.orders

/-- The `AutoTradingService.getOrderById`: `orders.find(o => o.orderId === orderId)`. -/
def getOrderById (st : AutoTradingState) (orderId : String) :
    Option OrderResult :=
  st.orders.find? fun order => order.orderId == orderId

/-- The ledger effect of `AutoTradingService.cancelOrder`:
`findIndex(o => o.orderId === orderId)` followed by an in-place status
write, expressed recursively (first match is rewritten to `cancelled`,
the rest kept; `false` and the unchanged list when there is no match). -/
def cancelOrderList : List OrderResult → String → Bool × List OrderResult
  | [], _ => (false, [])
  | order :: rest, orderId =>
    if order.orderId == orderId then
      (true, { order with status := Status.cancelled } :: rest)
    else
      let (found, rest2) := cancelOrderList rest orderId
      (found, order :: rest2)

/-- The `AutoTradingService.cancelOrder` on the service state. -/
def cancelOrder (st : AutoTradingState) (orderId : String) :
    Bool × AutoTradingState :=
  let (found, orders2) := cancelOrderList st.orders orderId
  (found, { st with orders := orders2 })

/-! ### Concrete fixtures used by counterexamples and witnesses -/

/-- Demo credentials. -/
def credsDemo : ExchangeCredentials :=
  { exchange := Exchange.demo, apiKey := "", apiSecret := "", testnet := true }

/-- Binance credentials. -/
def credsBinance : ExchangeCredentials :=
  { exchange := Exchange.binance, apiKey := "k", apiSecret := "s", testnet := true }

/-- A hold signal. -/
def sigHold : TradingSignal :=
  { symbol := "BTCUSDT", action := Action.hold, price := 100, quantity := 1,
    stopLoss := 95, takeProfit := 110, confidence := 80, timestamp := 7 }

/-- A buy signal. -/
def sigBuy : TradingSignal :=
  { symbol := "BTCUSDT", action := Action.buy, price := 100, quantity := 1,
    stopLoss := 95, takeProfit := 110, confidence := 80, timestamp := 7 }

/-- A sell signal on a different symbol. -/
def sigSell : TradingSignal :=
  { symbol := "ETHUSDT", action := Action.sell, price := 50, quantity := 2,
    stopLoss := 55, takeProfit := 40, confidence := 60, timestamp := 8 }

/-- An environment reading: time 5 ms, both random draws 1/2. -/
def env0 : Env := { now := 5, rand1 := 1 / 2, rand2 := 1 / 2 }

/-- An environment reading at time 0 (used to exhibit same-millisecond
orderId collisions). -/
def envT0 : Env := { now := 0, rand1 := 1 / 2, rand2 := 1 / 2 }

/-- A pending order sitting in a ledger. -/
def orderW : OrderResult :=
  { orderId := "w1", symbol := "BTCUSDT", side := Action.buy, quantity := 1,
    price := 100, status := Status.pending, timestamp := 0 }

/-- An already-filled (terminal) order. -/
def orderF : OrderResult :=
  { orderId := "f1", symbol := "ETHUSDT", side := Action.sell, quantity := 2,
    price := 50, status := Status.filled, timestamp := 1 }

/-- An enabled demo service holding `orderW` and `orderF`. -/
def stW : AutoTradingState :=
  { credentials := credsDemo, isEnabled := true, orders := [orderW, orderF] }

/-! ### C2: position sizing and the division-by-zero behaviour -/

/-- C2, counterexample: with `entry = stopLoss` the unguarded JS division
returns `Infinity` (and `riskReward` likewise); no
`InvalidRiskParametersError` is signalled, contradicting the claim. -/
theorem positionSize_zero_denominator_returns_infinity :
    calculatePositionSize 10000 2 100 100 = JsNumber.posInf ∧
    calculateRiskReward 100 100 110 = JsNumber.posInf := by
  constructor <;> norm_num [calculatePositionSize, calculateRiskReward, jsDiv]

/-- C2 (amended): for `entry ≠ stopLoss`, `positionSize` returns
`(balance × riskPct/100) / |entry − stopLoss|` — in particular
`positionSize (10000, 2, 100, 95) = 40` — and for `entry = stopLoss` the
code returns the JS value `Infinity` from the unguarded division (no
error is raised); `riskReward` behaves the same way. -/
theorem positionSize_spec (balance riskPct entry stopLoss : ℚ)
    (h : entry ≠ stopLoss) :
    calculatePositionSize balance riskPct entry stopLoss =
      JsNumber.finite (balance * (riskPct / 100) / |entry - stopLoss|) ∧
    calculatePositionSize 10000 2 100 95 = JsNumber.finite 40 ∧
    (∀ b r e : ℚ, 0 < b * (r / 100) →
      calculatePositionSize b r e e = JsNumber.posInf) ∧
    (∀ e s t : ℚ, e ≠ s →
      calculateRiskReward e s t = JsNumber.finite (|t - e| / |e - s|)) ∧
    (∀ e t : ℚ, t ≠ e → calculateRiskReward e e t = JsNumber.posInf) := by
  have habs : |entry - stopLoss| ≠ 0 := by
    simpa [sub_eq_zero] using h
  refine ⟨?_, ?_, ?_, ?_, ?_⟩
  · simp [calculatePositionSize, jsDiv, habs]
  · norm_num [calculatePositionSize, jsDiv]
  · intro b r e hb
    simp [calculatePositionSize, jsDiv, hb]
  · intro e s t hes
    have : |e - s| ≠ 0 := by simpa [sub_eq_zero] using hes
    simp [calculateRiskReward, jsDiv, this]
  · intro e t hte
    have : (0 : ℚ) < |t - e| := by
      have : t - e ≠ 0 := sub_ne_zero.mpr hte
      exact abs_pos.mpr this
    simp [calculateRiskReward, jsDiv, this]

/-- C2, witness for `positionSize_spec` at
`(balance, riskPct, entry, stopLoss) = (10000, 2, 100, 95)`. -/
theorem positionSize_spec_witness :
    (100 : ℚ) ≠ 95 ∧
    calculatePositionSize 10000 2 100 95 = JsNumber.finite 40 :=
  ⟨by norm_num, (positionSize_spec 10000 2 100 95 (by norm_num)).2.1⟩

/-! ### C9: trade admissibility -/

/-- C9: `isValidTrade` is a pure predicate, true exactly when
`|price − stopLoss| × quantity ≤ balance × maxRiskPct/100` and
`price × quantity ≤ balance`. -/
theorem isValidTrade_spec (signal : TradingSignal)
    (accountBalance maxRiskPercentage : ℚ) :
    isValidTrade signal accountBalance maxRiskPercentage = true ↔
      (|signal.price - signal.stopLoss| * signal.quantity ≤
          accountBalance * (maxRiskPercentage / 100) ∧
        signal.price * signal.quantity ≤ accountBalance) := by
  simp [isValidTrade]

/-! ### C10: SMA and EMA are undefined on the empty price list -/

/-- C10: on the empty price list the insufficient-data fallback indexes
`prices[length − 1]`, which does not exist, so `calculateSMA` and
`calculateEMA` return `none` for every positive period; on any non-empty
input both are defined. -/
theorem smaEma_empty_undefined (period : ℕ) (prices : List ℚ)
    (hperiod : 0 < period) (hne : prices ≠ []) :
    calculateSMA [] period = none ∧
    calculateEMA [] period = none ∧
    (calculateSMA prices period).isSome = true ∧
    (calculateEMA prices period).isSome = true := by
  have hlen : 0 < prices.length := List.length_pos.mpr hne
  refine ⟨?_, ?_, ?_, ?_⟩
  · simp [calculateSMA, hperiod]
  · simp [calculateEMA, hperiod]
  · by_cases hcase : prices.length < period
    · have hidx : prices.length - 1 < prices.length := by omega
      simp [calculateSMA, hcase, List.getElem?_eq_getElem hidx]
    · simp [calculateSMA, hcase]
  · by_cases hcase : prices.length < period
    · have hidx : prices.length - 1 < prices.length := by omega
      simp [calculateEMA, hcase, List.getElem?_eq_getElem hidx]
    · cases prices with
      | nil => exact absurd rfl hne
      | cons p rest =>
        rw [calculateEMA]
        split
        · exact absurd ‹(p :: rest).length < period› hcase
        · simp

/-- C10, witness for `smaEma_empty_undefined` at `period = 1`,
`prices = [3]`. -/
theorem smaEma_empty_undefined_witness :
    0 < 1 ∧ ([3] : List ℚ) ≠ [] ∧
    calculateSMA [] 1 = none ∧ calculateEMA [] 1 = none ∧
    (calculateSMA [3] 1).isSome = true ∧
    (calculateEMA [3] 1).isSome = true := by
  have h := smaEma_empty_undefined 1 [3] (by decide) (by simp)
  exact ⟨by decide, by simp, h.1, h.2.1, h.2.2.1, h.2.2.2⟩

/-! ### C6: the enable/disable state machine gates execution -/

/-- C6: the service starts `Disabled`; `enable` moves it to `Enabled` and
`disable` back; in any disabled state — freshly constructed, explicitly
disabled, or enabled-then-disabled — `executeSignal` fails with the
`Auto trading is not enabled` error for every signal. -/
theorem notEnabled_spec :
    (∀ credentials, (mkService credentials).isEnabled = false) ∧
    (∀ st : AutoTradingState, (enable st).isEnabled = true) ∧
    (∀ st : AutoTradingState, (disable st).isEnabled = false) ∧
    (∀ (st : AutoTradingState) (signal : TradingSignal) (env : Env),
      executeSignal { st with isEnabled := false } signal env =
        Except.error "Auto trading is not enabled") ∧
    (∀ (credentials : ExchangeCredentials) (signal : TradingSignal) (env : Env),
      executeSignal (mkService credentials) signal env =
        Except.error "Auto trading is not enabled") ∧
    (∀ (st : AutoTradingState) (signal : TradingSignal) (env : Env),
      executeSignal (disable (enable st)) signal env =
        Except.error "Auto trading is not enabled") := by
  refine ⟨fun _ => rfl, fun _ => rfl, fun _ => rfl, ?_, ?_, ?_⟩
  · intro st signal env
    simp [executeSignal]
  · intro credentials signal env
    simp [executeSignal, mkService]
  · intro st signal env
    simp [executeSignal, disable, enable]

/-! ### C1: the hold path -/

/-- C1 (amended): while enabled, a hold signal yields the synthesized
order — `status = cancelled`, `quantity = 0`, `side = buy` — with no
gateway call (`gatewayCalled = false`) and the state, including the order
ledger, UNCHANGED: unlike the claim's wording, the hold result is NOT
recorded into the ledger, so it is not subsequently visible via
`getOrders`. -/
theorem executeSignal_hold_spec (st : AutoTradingState)
    (signal : TradingSignal) (env : Env) (hen : st.isEnabled = true)
    (hact : signal.action = Action.hold) :
    executeSignal st signal env =
      Except.ok (createHoldOrder signal env.now, st, false) ∧
    (createHoldOrder signal env.now).status = Status.cancelled ∧
    (createHoldOrder signal env.now).quantity = 0 ∧
    (createHoldOrder signal env.now).side = Action.buy := by
  refine ⟨?_, rfl, rfl, rfl⟩
  simp [executeSignal, hen, hact]

/-- C1, witness for `executeSignal_hold_spec` on an enabled demo service
and a hold signal. -/
theorem executeSignal_hold_spec_witness :
    (enable (mkService credsDemo)).isEnabled = true ∧
    sigHold.action = Action.hold ∧
    executeSignal (enable (mkService credsDemo)) sigHold env0 =
      Except.ok (createHoldOrder sigHold env0.now,
        enable (mkService credsDemo), false) :=
  ⟨rfl, rfl, (executeSignal_hold_spec (enable (mkService credsDemo))
    sigHold env0 rfl rfl).1⟩

/-- C1, counterexample: on an enabled demo service with an empty ledger,
a hold signal returns the synthesized cancelled order but the post-call
state is unchanged and the order is NOT visible via `getOrders` — the
claim's `records that OrderResult into the OrderLedger` is false. -/
theorem executeSignal_hold_not_recorded_cex :
    executeSignal (enable (mkService credsDemo)) sigHold env0 =
      Except.ok (createHoldOrder sigHold 5, enable (mkService credsDemo),
        false) ∧
    createHoldOrder sigHold 5 ∉ getOrders (enable (mkService credsDemo)) :=
  ⟨rfl, by simp [getOrders, enable, mkService]⟩

/-! ### C3: ledger recording of executed non-hold signals -/

/-- Helper: `find?` over an appended fresh element. -/
theorem find?_append_fresh (l : List OrderResult) (order : OrderResult)
    (h : ∀ o ∈ l, o.orderId ≠ order.orderId) :
    ((l ++ [order]).find? fun o => o.orderId == order.orderId) =
      some order := by
  induction l with
  | nil => simp
  | cons o rest ih =>
    have ho : (o.orderId == order.orderId) = false := by
      simpa using h o (List.mem_cons_self o rest)
    simpa [List.find?, ho] using
      ih fun x hx => h x (List.mem_cons_of_mem o hx)

/-- C3 (amended): while enabled, a non-hold signal executed against the
demo, bybit or okx variants appends the returned order to the ledger, so
it appears in `getOrders` and — when its `orderId` is fresh —
`getOrderById` retrieves it; against the binance variant, the returned
order is NOT appended (the ledger is unchanged). -/
theorem executeSignal_append_spec (st : AutoTradingState)
    (signal : TradingSignal) (env : Env) (hen : st.isEnabled = true)
    (hact : signal.action ≠ Action.hold) :
    ((st.credentials.exchange = Exchange.demo ∨
        st.credentials.exchange = Exchange.bybit ∨
        st.credentials.exchange = Exchange.okx) →
      executeSignal st signal env =
        Except.ok ((executeDemoTrade st.orders signal env).1,
          { st with orders := (executeDemoTrade st.orders signal env).2 },
          true) ∧
      (executeDemoTrade st.orders signal env).2 =
        st.orders ++ [(executeDemoTrade st.orders signal env).1] ∧
      (executeDemoTrade st.orders signal env).1 ∈
        getOrders { st with
          orders := (executeDemoTrade st.orders signal env).2 } ∧
      ((∀ o ∈ st.orders,
          o.orderId ≠ (executeDemoTrade st.orders signal env).1.orderId) →
        getOrderById
            { st with orders := (executeDemoTrade st.orders signal env).2 }
            (executeDemoTrade st.orders signal env).1.orderId =
          some (executeDemoTrade st.orders signal env).1)) ∧
    (st.credentials.exchange = Exchange.binance →
      executeSignal st signal env =
        Except.ok ((executeBinanceTrade st.orders signal env).1, st,
          true)) := by
  constructor
  · intro hvariant
    refine ⟨?_, rfl, ?_, ?_⟩
    · rcases hvariant with hx | hx | hx <;>
        simp [executeSignal, executeRealTrade, hen, hact, hx,
          executeDemoTrade]
    · simp [getOrders, executeDemoTrade]
    · intro hfresh
      exact find?_append_fresh st.orders _ hfresh
  · intro hx
    have hnotdemo : st.credentials.exchange ≠ Exchange.demo := by
      rw [hx]; intro hc; cases hc
    obtain ⟨creds, en, ords⟩ := st
    subst hen
    simp_all [executeSignal, executeRealTrade, executeBinanceTrade]

/-- C3, witness for `executeSignal_append_spec` on an enabled demo
service with an empty ledger and a buy signal. -/
theorem executeSignal_append_spec_witness :
    (enable (mkService credsDemo)).isEnabled = true ∧
    sigBuy.action ≠ Action.hold ∧
    executeSignal (enable (mkService credsDemo)) sigBuy env0 =
      Except.ok ((executeDemoTrade [] sigBuy env0).1,
        { enable (mkService credsDemo) with
            orders := (executeDemoTrade [] sigBuy env0).2 }, true) :=
  ⟨rfl, by simp [sigBuy], ((executeSignal_append_spec
      (enable (mkService credsDemo)) sigBuy env0 rfl
      (by simp [sigBuy])).1 (Or.inl rfl)).1⟩

/-- C3, counterexample: on an enabled binance service with an empty
ledger, executing a buy signal returns an order that is NOT appended to
the ledger — it is absent from `getOrders` and unreachable through
`getOrderById` — refuting the claim for the binance variant. -/
theorem executeSignal_binance_not_recorded_cex :
    executeSignal (enable (mkService credsBinance)) sigBuy env0 =
      Except.ok ((executeBinanceTrade [] sigBuy env0).1,
        enable (mkService credsBinance), true) ∧
    (executeBinanceTrade [] sigBuy env0).1 ∉
      getOrders (enable (mkService credsBinance)) ∧
    getOrderById (enable (mkService credsBinance))
      (executeBinanceTrade [] sigBuy env0).1.orderId = none :=
  ⟨rfl, by simp [getOrders, enable, mkService], rfl⟩

/-! ### C5: cancelOrder -/

/-- Helper: `cancelOrderList` on a ledger with no matching id. -/
theorem cancelOrderList_not_found (l : List OrderResult) (orderId : String)
    (h : ∀ o ∈ l, o.orderId ≠ orderId) :
    cancelOrderList l orderId = (false, l) := by
  induction l with
  | nil => rfl
  | cons o rest ih =>
    have ho : (o.orderId == orderId) = false := by
      simpa using h o (List.mem_cons_self o rest)
    simp [cancelOrderList, ho,
      ih fun x hx => h x (List.mem_cons_of_mem o hx)]

/-- Helper: `cancelOrderList` on a ledger containing a matching id
returns `true` and rewrites the first match's status to `cancelled`,
whatever that status was before. -/
theorem cancelOrderList_found (l : List OrderResult) (orderId : String)
    (h : ∃ o ∈ l, o.orderId = orderId) :
    (cancelOrderList l orderId).1 = true ∧
    ∃ o2, ((cancelOrderList l orderId).2.find?
        fun o => o.orderId == orderId) = some o2 ∧
      o2.status = Status.cancelled := by
  induction l with
  | nil => simp at h
  | cons o rest ih =>
    by_cases ho : o.orderId = orderId
    · have hob : (o.orderId == orderId) = true := by simpa using ho
      refine ⟨by simp [cancelOrderList, hob], ?_⟩
      exact ⟨{ o with status := Status.cancelled },
        by simp [cancelOrderList, hob, List.find?], rfl⟩
    · have hob : (o.orderId == orderId) = false := by simpa using ho
      have hrest : ∃ x ∈ rest, x.orderId = orderId := by
        rcases h with ⟨x, hx, hxid⟩
        rcases List.mem_cons.mp hx with hxo | hxr
        · exact absurd (hxo ▸ hxid) ho
        · exact ⟨x, hxr, hxid⟩
      obtain ⟨hb, o2, hf, hs⟩ := ih hrest
      refine ⟨by simp [cancelOrderList, hob, hb], ⟨o2, ?_, hs⟩⟩
      simp [cancelOrderList, hob, List.find?, hf]

/-- C5: `cancelOrder` returns `false` and leaves the ledger unchanged
when no order carries the id; when some order carries the id — whatever
its current status, `pending` or already terminal — it returns `true`
and `getOrderById` afterwards shows `status = cancelled` (the terminal
statuses are overwritten, exactly as the claim flags). -/
theorem cancelOrder_spec (st : AutoTradingState) (orderId : String) :
    ((∀ o ∈ st.orders, o.orderId ≠ orderId) →
      cancelOrder st orderId = (false, st)) ∧
    (∀ o ∈ st.orders, o.orderId = orderId →
      (cancelOrder st orderId).1 = true ∧
      ∃ o2, getOrderById (cancelOrder st orderId).2 orderId = some o2 ∧
        o2.status = Status.cancelled) := by
  constructor
  · intro h
    simp [cancelOrder, cancelOrderList_not_found st.orders orderId h]
  · intro o ho hid
    obtain ⟨hb, o2, hf, hs⟩ :=
      cancelOrderList_found st.orders orderId ⟨o, ho, hid⟩
    exact ⟨by simp [cancelOrder, hb], ⟨o2, by simp [cancelOrder,
      getOrderById, hf], hs⟩⟩

/-- C5, witness for `cancelOrder_spec`: on a ledger holding the pending
order `w1` and the filled order `f1`, cancelling the unknown id `zzz`
returns `false` and changes nothing; cancelling `w1` (pending) and `f1`
(terminal) both return `true`. -/
theorem cancelOrder_spec_witness :
    (∀ o ∈ stW.orders, o.orderId ≠ "zzz") ∧
    cancelOrder stW "zzz" = (false, stW) ∧
    orderW ∈ stW.orders ∧ orderW.orderId = "w1" ∧
    (cancelOrder stW "w1").1 = true ∧
    orderF ∈ stW.orders ∧ orderF.orderId = "f1" ∧
    (cancelOrder stW "f1").1 = true := by
  have hz : ∀ o ∈ stW.orders, o.orderId ≠ "zzz" := by
    intro o ho
    simp only [stW, orderW, orderF] at ho
    rcases List.mem_cons.mp ho with h | h
    · subst h; decide
    · rcases List.mem_cons.mp h with h2 | h2
      · subst h2; decide
      · simp at h2
  have hw : orderW ∈ stW.orders := List.mem_cons_self _ _
  have hf : orderF ∈ stW.orders :=
    List.mem_cons_of_mem _ (List.mem_cons_self _ _)
  exact ⟨hz, (cancelOrder_spec stW "zzz").1 hz, hw, rfl,
    ((cancelOrder_spec stW "w1").2 orderW hw rfl).1, hf, rfl,
    ((cancelOrder_spec stW "f1").2 orderF hf rfl).1⟩

/-! ### C7: the demo execution path -/

/-- C7: the demo order's status is `filled` or `failed` for every random
draw; the fee is always `price × quantity × 0.001`, the executed
quantity equals `quantity`, and — for a non-negative price and a random
draw in `[0, 1)` — the executed price is `price` plus a slippage lying
within `price × [−0.05%, +0.05%]`. -/
theorem executeDemoTrade_spec (orders : List OrderResult)
    (signal : TradingSignal) (env : Env) (hr0 : 0 ≤ env.rand2)
    (hr1 : env.rand2 < 1) (hp : 0 ≤ signal.price) :
    ((executeDemoTrade orders signal env).1.status = Status.filled ∨
      (executeDemoTrade orders signal env).1.status = Status.failed) ∧
    (executeDemoTrade orders signal env).1.fees =
      some (signal.price * signal.quantity * (1 / 1000)) ∧
    (executeDemoTrade orders signal env).1.executedQty =
      some signal.quantity ∧
    (executeDemoTrade orders signal env).1.executedPrice =
      some (signal.price +
        (env.rand2 - 1 / 2) * signal.price * (1 / 1000)) ∧
    -(signal.price * (5 / 10000)) ≤
      (env.rand2 - 1 / 2) * signal.price * (1 / 1000) ∧
    (env.rand2 - 1 / 2) * signal.price * (1 / 1000) ≤
      signal.price * (5 / 10000) := by
  refine ⟨?_, rfl, rfl, rfl, ?_, ?_⟩
  · by_cases hr : (1 : ℚ) / 10 < env.rand1
    · exact Or.inl (if_pos hr)
    · exact Or.inr (if_neg hr)
  · nlinarith
  · nlinarith

/-- C7, witness for `executeDemoTrade_spec` at the draw `rand2 = 1/2`
and `price = 100`. -/
theorem executeDemoTrade_spec_witness :
    (0 : ℚ) ≤ env0.rand2 ∧ env0.rand2 < 1 ∧ (0 : ℚ) ≤ sigBuy.price ∧
    ((executeDemoTrade [] sigBuy env0).1.status = Status.filled ∨
      (executeDemoTrade [] sigBuy env0).1.status = Status.failed) ∧
    (executeDemoTrade [] sigBuy env0).1.fees =
      some (sigBuy.price * sigBuy.quantity * (1 / 1000)) :=
  have h := executeDemoTrade_spec [] sigBuy env0 (by norm_num [env0])
    (by norm_num [env0]) (by norm_num [sigBuy])
  ⟨by norm_num [env0], by norm_num [env0], by norm_num [sigBuy],
    h.1, h.2.1⟩

/-! ### C4: orderId uniqueness -/

/-- Helper: decimal digit characters are distinct. -/
theorem digitChar_inj_lt :
    ∀ d1, d1 < 10 → ∀ d2, d2 < 10 → digitChar d1 = digitChar d2 →
      d1 = d2 := by
  decide

/-- Helper: one-step unfolding of `toDecDigits`. -/
theorem toDecDigits_step (n : ℕ) :
    toDecDigits n =
      if n = 0 then [] else digitChar (n % 10) :: toDecDigits (n / 10) := by
  rw [toDecDigits]
  split <;> rfl

/-- Helper: the decimal digit list determines the number. -/
theorem toDecDigits_inj :
    ∀ m n : ℕ, toDecDigits m = toDecDigits n → m = n := by
  intro m
  induction m using Nat.strong_induction_on with
  | _ m ih =>
    intro n h
    rw [toDecDigits_step m, toDecDigits_step n] at h
    by_cases hm : m = 0 <;> by_cases hn : n = 0
    · omega
    · simp [hm, hn] at h
    · simp [hm, hn] at h
    · simp only [hm, hn, if_neg, ite_false] at h
      obtain ⟨hhead, htail⟩ := List.cons.injEq .. ▸ h
      have hmod : m % 10 = n % 10 :=
        digitChar_inj_lt (m % 10) (Nat.mod_lt m (by decide)) (n % 10)
          (Nat.mod_lt n (by decide)) hhead
      have hdiv : m / 10 = n / 10 :=
        ih (m / 10) (Nat.div_lt_self (Nat.pos_of_ne_zero hm) (by decide))
          (n / 10) htail
      omega

/-- Helper: `toDecDigits` is empty only for zero. -/
theorem toDecDigits_eq_nil_iff (n : ℕ) : toDecDigits n = [] ↔ n = 0 := by
  rw [toDecDigits_step]
  split <;> simp_all

/-- Helper: JavaScript decimal rendering is injective. -/
theorem natToDecimal_inj (m n : ℕ) (h : natToDecimal m = natToDecimal n) :
    m = n := by
  unfold natToDecimal at h
  by_cases hm : m = 0 <;> by_cases hn : n = 0
  · omega
  · rw [if_pos hm, if_neg hn] at h
    have hdata := congrArg String.data h
    have hlist : (toDecDigits n).reverse = ['0'] := by
      simpa using hdata.symm
    have hrev : toDecDigits n = ['0'] := by
      have := congrArg List.reverse hlist
      simpa using this
    rw [toDecDigits_step, if_neg hn] at hrev
    obtain ⟨hhead, htail⟩ := List.cons.injEq .. ▸ hrev
    have hmod : n % 10 = 0 :=
      digitChar_inj_lt (n % 10) (Nat.mod_lt n (by decide)) 0 (by decide)
        (by simpa [digitChar] using hhead)
    have hdiv : n / 10 = 0 :=
      (toDecDigits_eq_nil_iff (n / 10)).mp htail
    omega
  · rw [if_neg hm, if_pos hn] at h
    have hdata := congrArg String.data h
    have hlist : (toDecDigits m).reverse = ['0'] := by
      simpa using hdata
    have hrev : toDecDigits m = ['0'] := by
      have := congrArg List.reverse hlist
      simpa using this
    rw [toDecDigits_step, if_neg hm] at hrev
    obtain ⟨hhead, htail⟩ := List.cons.injEq .. ▸ hrev
    have hmod : m % 10 = 0 :=
      digitChar_inj_lt (m % 10) (Nat.mod_lt m (by decide)) 0 (by decide)
        (by simpa [digitChar] using hhead)
    have hdiv : m / 10 = 0 :=
      (toDecDigits_eq_nil_iff (m / 10)).mp htail
    omega
  · rw [if_neg hm, if_neg hn] at h
    have hdata := congrArg String.data h
    have hrev : (toDecDigits m).reverse = (toDecDigits n).reverse := by
      simpa using hdata
    have : toDecDigits m = toDecDigits n := by
      have := congrArg List.reverse hrev
      simpa using this
    exact toDecDigits_inj m n this

/-- Helper: appending after a fixed prefix is injective on strings. -/
theorem string_append_right_inj (p s t : String) (h : p ++ s = p ++ t) :
    s = t := by
  obtain ⟨pl⟩ := p
  obtain ⟨sl⟩ := s
  obtain ⟨tl⟩ := t
  have hdata := congrArg String.data h
  simp only [String.data_append] at hdata
  exact congrArg String.mk (List.append_cancel_left hdata)

/-- C4, counterexample: two distinct orders recorded by the demo path in
the same millisecond (`Date.now() = 0`) receive the SAME `orderId`
(`demo_0`), refuting ledger-wide orderId uniqueness at equal creation
times. -/
theorem orderId_collision_cex :
    executeSignal (enable (mkService credsDemo)) sigBuy envT0 =
      Except.ok ((executeDemoTrade [] sigBuy envT0).1,
        { enable (mkService credsDemo) with
            orders := (executeDemoTrade [] sigBuy envT0).2 }, true) ∧
    executeSignal { enable (mkService credsDemo) with
        orders := (executeDemoTrade [] sigBuy envT0).2 } sigSell envT0 =
      Except.ok ((executeDemoTrade (executeDemoTrade [] sigBuy envT0).2
          sigSell envT0).1,
        { enable (mkService credsDemo) with
            orders := (executeDemoTrade (executeDemoTrade [] sigBuy
              envT0).2 sigSell envT0).2 }, true) ∧
    (executeDemoTrade [] sigBuy envT0).1 ≠
      (executeDemoTrade (executeDemoTrade [] sigBuy envT0).2 sigSell
        envT0).1 ∧
    (executeDemoTrade [] sigBuy envT0).1.orderId =
      (executeDemoTrade (executeDemoTrade [] sigBuy envT0).2 sigSell
        envT0).1.orderId := by
  refine ⟨rfl, rfl, ?_, rfl⟩
  intro h
  exact absurd (congrArg OrderResult.symbol h) (by decide)

/-- C4 (amended): orderIds encode only the execution path prefix and the
creation millisecond, so uniqueness holds exactly up to creation time:
two hold, demo or binance orderIds from the same path coincide iff their
`Date.now()` readings coincide (orders created in the same millisecond
collide), while ids from different paths always differ. -/
theorem orderId_unique_iff (t1 t2 : ℕ) :
    (demoOrderId t1 = demoOrderId t2 ↔ t1 = t2) ∧
    (holdOrderId t1 = holdOrderId t2 ↔ t1 = t2) ∧
    (binanceOrderId t1 = binanceOrderId t2 ↔ t1 = t2) ∧
    demoOrderId t1 ≠ holdOrderId t2 ∧
    demoOrderId t1 ≠ binanceOrderId t2 ∧
    holdOrderId t1 ≠ binanceOrderId t2 := by
  refine ⟨⟨?_, fun h => h ▸ rfl⟩, ⟨?_, fun h => h ▸ rfl⟩,
    ⟨?_, fun h => h ▸ rfl⟩, ?_, ?_, ?_⟩
  · intro h
    exact natToDecimal_inj t1 t2
      (string_append_right_inj "demo_" _ _ h)
  · intro h
    exact natToDecimal_inj t1 t2
      (string_append_right_inj "hold_" _ _ h)
  · intro h
    exact natToDecimal_inj t1 t2
      (string_append_right_inj "binance_" _ _ h)
  · intro h
    have hdata := congrArg String.data h
    simp [demoOrderId, holdOrderId, String.data_append] at hdata
  · intro h
    have hdata := congrArg String.data h
    simp [demoOrderId, binanceOrderId, String.data_append] at hdata
  · intro h
    have hdata := congrArg String.data h
    simp [holdOrderId, binanceOrderId, String.data_append] at hdata

/-! ### C8: RSI -/

/-- Helper: on a strictly increasing price list every delta is positive. -/
theorem deltas_pos (l : List ℚ) (h : List.Chain' (· < ·) l) :
    ∀ c ∈ deltas l, 0 < c := by
  induction l with
  | nil => simp [deltas]
  | cons a rest ih =>
    cases rest with
    | nil => simp [deltas]
    | cons b rest2 =>
      rw [List.chain'_cons] at h
      intro c hc
      simp only [deltas, List.mem_cons] at hc
      rcases hc with h1 | h2
      · rw [h1]; linarith [h.1]
      · exact ih h.2 c h2

/-- Helper: on a strictly decreasing price list every delta is negative. -/
theorem deltas_neg (l : List ℚ) (h : List.Chain' (· > ·) l) :
    ∀ c ∈ deltas l, c < 0 := by
  induction l with
  | nil => simp [deltas]
  | cons a rest ih =>
    cases rest with
    | nil => simp [deltas]
    | cons b rest2 =>
      rw [List.chain'_cons] at h
      intro c hc
      simp only [deltas, List.mem_cons] at hc
      rcases hc with h1 | h2
      · rw [h1]; linarith [h.1]
      · exact ih h.2 c h2

/-- Helper: the number of deltas is one less than the number of prices. -/
theorem deltas_length (l : List ℚ) : (deltas l).length = l.length - 1 := by
  induction l with
  | nil => rfl
  | cons a rest ih =>
    cases rest with
    | nil => rfl
    | cons b rest2 =>
      simp only [deltas, List.length_cons] at ih ⊢
      omega

/-- C8: RSI returns the neutral 50 on inputs shorter than `period + 1`;
returns 100 on every strictly increasing sequence longer than
`period + 1` (the average loss is exactly 0); returns 0 on every strictly
decreasing such sequence; and otherwise returns
`100 − 100/(1 + avgGain/avgLoss)` over the last `period` deltas. -/
theorem calculateRSI_spec (period : ℕ) (prices : List ℚ)
    (hperiod : 0 < period) :
    (prices.length < period + 1 → calculateRSI prices period = 50) ∧
    (period + 1 < prices.length → List.Chain' (· < ·) prices →
      calculateRSI prices period = 100) ∧
    (period + 1 < prices.length → List.Chain' (· > ·) prices →
      calculateRSI prices period = 0) ∧
    (¬ prices.length < period + 1 → rsiAvgLoss prices period ≠ 0 →
      calculateRSI prices period =
        100 - 100 / (1 + rsiAvgGain prices period /
          rsiAvgLoss prices period)) := by
  refine ⟨?_, ?_, ?_, ?_⟩
  · intro hshort
    simp [calculateRSI, hshort]
  · intro hlen hch
    have hnot : ¬ prices.length < period + 1 := by omega
    have hzero : rsiAvgLoss prices period = 0 := by
      unfold rsiAvgLoss
      have hsum : (lastN period (losses prices)).sum = 0 := by
        refine List.sum_eq_zero fun x hx => ?_
        have hxl : x ∈ losses prices := List.drop_subset _ _ hx
        obtain ⟨c, hc, rfl⟩ := List.mem_map.mp hxl
        have hcpos := deltas_pos prices hch c hc
        rw [if_neg (not_lt.mpr hcpos.le)]
      rw [hsum, zero_div]
    simp [calculateRSI, hnot, hzero]
  · intro hlen hch
    have hnot : ¬ prices.length < period + 1 := by omega
    have hga : rsiAvgGain prices period = 0 := by
      unfold rsiAvgGain
      have hsum : (lastN period (gains prices)).sum = 0 := by
        refine List.sum_eq_zero fun x hx => ?_
        have hxl : x ∈ gains prices := List.drop_subset _ _ hx
        obtain ⟨c, hc, rfl⟩ := List.mem_map.mp hxl
        have hcneg := deltas_neg prices hch c hc
        rw [if_neg (not_lt.mpr hcneg.le)]
      rw [hsum, zero_div]
    have hlpos : 0 < rsiAvgLoss prices period := by
      unfold rsiAvgLoss
      have hne : lastN period (losses prices) ≠ [] := by
        have hlenl : (losses prices).length = prices.length - 1 := by
          simpa [losses] using deltas_length prices
        have : (lastN period (losses prices)).length = period := by
          simp only [lastN, List.length_drop]
          omega
        intro hemp
        rw [hemp] at this
        simp at this
        omega
      have hsum : 0 < (lastN period (losses prices)).sum := by
        refine List.sum_pos _ (fun x hx => ?_) hne
        have hxl : x ∈ losses prices := List.drop_subset _ _ hx
        obtain ⟨c, hc, rfl⟩ := List.mem_map.mp hxl
        have hcneg := deltas_neg prices hch c hc
        rw [if_pos hcneg]
        exact abs_pos.mpr hcneg.ne
      exact div_pos hsum (by exact_mod_cast hperiod)
    have hres : calculateRSI prices period =
        100 - 100 / (1 + rsiAvgGain prices period /
          rsiAvgLoss prices period) := by
      simp [calculateRSI, hnot, hlpos.ne']
    rw [hres, hga, zero_div, add_zero, div_one]
    norm_num
  · intro hnot hnz
    simp [calculateRSI, hnot, hnz]

/-- C8, witness for `calculateRSI_spec` at `period = 1`: a short input
gives 50, the increasing list `[1, 2, 3]` gives 100, the decreasing list
`[3, 2, 1]` gives 0. -/
theorem calculateRSI_spec_witness :
    0 < 1 ∧ ([1] : List ℚ).length < 1 + 1 ∧
    (1 : ℕ) + 1 < ([1, 2, 3] : List ℚ).length ∧
    List.Chain' (· < ·) ([1, 2, 3] : List ℚ) ∧
    List.Chain' (· > ·) ([3, 2, 1] : List ℚ) ∧
    calculateRSI [1] 1 = 50 ∧
    calculateRSI [1, 2, 3] 1 = 100 ∧
    calculateRSI [3, 2, 1] 1 = 0 := by
  have hinc : List.Chain' (· < ·) ([1, 2, 3] : List ℚ) := by
    norm_num [List.chain'_cons]
  have hdec : List.Chain' (· > ·) ([3, 2, 1] : List ℚ) := by
    norm_num [List.chain'_cons]
  exact ⟨by decide, by decide, by decide, hinc, hdec,
    (calculateRSI_spec 1 [1] (by decide)).1 (by decide),
    (calculateRSI_spec 1 [1, 2, 3] (by decide)).2.1 (by decide) hinc,
    (calculateRSI_spec 1 [3, 2, 1] (by decide)).2.2.1 (by decide) hdec⟩

end AutoTrading
